import Mathlib

/-!
Shallow embedding of the `hubspot_close_rates_sync` pipeline scripts
(`main_jul.py`, `main_aug.py`, `main-1.py`): time partitioning, paginated
fetch loops for owners / calls / meetings, owner-set filtering, per-owner
counting, report assembly and sheet publication.

Conventions of the embedding:
* Python epoch-millisecond conversion `int(dt.timestamp() * 1000)` is modelled
  by `ms tz d`: a day-of-year count times 86,400,000 plus a fixed constant
  `tz` that absorbs both the epoch base and the fixed local-timezone offset
  (the source performs no timezone normalization and all modelled dates lie
  in one calendar year under one fixed offset).
* HTTP page responses are modelled as values of page structures; a run of a
  fetch loop consumes a stream `Nat → Page`, the k-th fetch returning
  `stream k`.  Python truthiness of cursor strings and numeric offsets is
  modelled explicitly (`afterFalsy`, `offsetFalsy`).
* `defaultdict(int)` counter tables are association lists so that the
  presence or absence of a key is observable (`ctFind`), with
  `d[k] += 1` as `ctBump` and `d.get(k, 0)` as `ctGet`.
-/

/-- A calendar date as used by `datetime(year, month, day)` (midnight). -/
structure PyDate where
  year : Nat
  month : Nat
  day : Nat
deriving DecidableEq, Repr

/-- Gregorian leap-year rule, as implemented by Python's `datetime`. -/
def isLeap (y : Nat) : Bool :=
  (y % 4 == 0 && y % 100 != 0) || (y % 400 == 0)

/-- Number of days in month `m` of year `y` (Gregorian calendar). -/
def daysInMonth (y m : Nat) : Nat :=
  if m = 2 then (if isLeap y then 29 else 28)
  else if m = 4 ∨ m = 6 ∨ m = 9 ∨ m = 11 then 30
  else 31

/-- `current + timedelta(days=1)` on a midnight date. -/
def addOneDay (d : PyDate) : PyDate :=
  if d.day < daysInMonth d.year d.month then ⟨d.year, d.month, d.day + 1⟩
  else if d.month < 12 then ⟨d.year, d.month + 1, 1⟩
  else ⟨d.year + 1, 1, 1⟩

/-- Days elapsed in year `y` before the first day of month `m`. -/
def monthOffset (y : Nat) : Nat → Nat
  | 0 => 0
  | 1 => 0
  | m + 1 => monthOffset y m + daysInMonth y m

/-- Zero-based day-of-year index of a date. -/
def dayIndex (d : PyDate) : Nat :=
  monthOffset d.year d.month + (d.day - 1)

/-- One day in milliseconds. -/
def dayMs : Int := 86400000

/-- Models `ms(dt) = int(dt.timestamp() * 1000)` from the scripts: the fixed
constant `tz` absorbs the epoch base of the year together with the fixed
local UTC offset (the scripts never normalize timezones, per the spec a
fixed convention). -/
def ms (tz : Int) (d : PyDate) : Int :=
  (dayIndex d : Int) * dayMs + tz

/-- The `while current.month == target` range-building loop shared by
`generate_daily_ranges_july_2025` and `generate_daily_ranges_aug_2025`;
`fuel` bounds the recursion (the real loop exits after at most 31 steps
because `addOneDay` leaves the month). -/
def genRangesLoop (tz : Int) (target : Nat) : Nat → PyDate → List (Int × Int)
  | 0, _ => []
  | fuel + 1, cur =>
    if cur.month = target then
      (ms tz cur, ms tz (addOneDay cur)) :: genRangesLoop tz target fuel (addOneDay cur)
    else []

/-- `generate_daily_ranges_july_2025` from `main_jul.py` (lines 29-36). -/
def generate_daily_ranges_july_2025 (tz : Int) : List (Int × Int) :=
  genRangesLoop tz 7 40 ⟨2025, 7, 1⟩

/-- `generate_daily_ranges_aug_2025` from `main_aug.py` (lines 32-39). -/
def generate_daily_ranges_aug_2025 (tz : Int) : List (Int × Int) :=
  genRangesLoop tz 8 40 ⟨2025, 8, 1⟩

/-- The arithmetic normal form of a month of daily ranges: `n` consecutive
day-long half-open windows starting at `base`. -/
def dailyWindows (base : Int) (n : Nat) : List (Int × Int) :=
  (List.range n).map (fun (i : Nat) => (base + (i : Int) * dayMs, base + ((i : Int) + 1) * dayMs))

theorem monthOffset_succ (y m : Nat) (hm : 1 ≤ m) :
    monthOffset y (m + 1) = monthOffset y m + daysInMonth y m := by
  obtain ⟨m', rfl⟩ : ∃ m', m = m' + 1 := ⟨m - 1, by omega⟩
  rfl

theorem dailyWindows_succ (base : Int) (n : Nat) :
    dailyWindows base (n + 1) = (base, base + dayMs) :: dailyWindows (base + dayMs) n := by
  apply List.ext_getElem
  · simp [dailyWindows]
  · intro i h1 h2
    match i with
    | 0 => simp [dailyWindows]
    | i + 1 =>
      have hi : i < n := by
        simpa [dailyWindows] using h2
      simp only [dailyWindows, List.getElem_map, List.getElem_range, List.getElem_cons_succ,
        Prod.mk.injEq]
      push_cast
      constructor <;> ring

theorem genRangesLoop_eq (tz : Int) (target : Nat) (h1t : 1 ≤ target) (h11 : target < 12)
    (hdm : daysInMonth 2025 target = 31) :
    ∀ (n fuel d : Nat), 1 ≤ d → 1 ≤ n → d + n = 32 → n < fuel →
      genRangesLoop tz target fuel ⟨2025, target, d⟩ = dailyWindows (ms tz ⟨2025, target, d⟩) n := by
  intro n
  induction n with
  | zero =>
    intro fuel d _ h1 _ _
    exact absurd h1 (by omega)
  | succ n ih =>
    intro fuel d hd _ hdn hfuel
    obtain ⟨f, rfl⟩ : ∃ f, fuel = f + 1 := ⟨fuel - 1, by omega⟩
    rcases Nat.eq_zero_or_pos n with hn0 | hn1
    · -- last day of the month: the loop emits one range and exits on the next month
      subst hn0
      have hd31 : d = 31 := by omega
      subst hd31
      have hnext : addOneDay ⟨2025, target, 31⟩ = ⟨2025, target + 1, 1⟩ := by
        simp [addOneDay, hdm, h11]
      simp only [genRangesLoop, hnext, if_pos rfl, if_true]
      have hstop : ∀ f', genRangesLoop tz target f' ⟨2025, target + 1, 1⟩ = [] := by
        intro f'
        cases f' <;> simp [genRangesLoop]
      rw [hstop]
      have hms : ms tz ⟨2025, target + 1, 1⟩ = ms tz ⟨2025, target, 31⟩ + dayMs := by
        simp only [ms, dayIndex, monthOffset_succ 2025 target h1t, hdm, dayMs]
        omega
      rw [hms, dailyWindows_succ]
      simp [dailyWindows]
    · -- interior day: peel one range and apply the induction hypothesis
      have hdlt : d < 31 := by omega
      have hnext : addOneDay ⟨2025, target, d⟩ = ⟨2025, target, d + 1⟩ := by
        simp [addOneDay, hdm, hdlt]
      simp only [genRangesLoop, hnext, if_pos rfl, if_true]
      rw [ih f (d + 1) (by omega) hn1 (by omega) (by omega)]
      have hms : ms tz ⟨2025, target, d + 1⟩ = ms tz ⟨2025, target, d⟩ + dayMs := by
        simp only [ms, dayIndex, dayMs]
        omega
      rw [dailyWindows_succ, hms]

theorem july_ranges_eq_windows (tz : Int) :
    generate_daily_ranges_july_2025 tz = dailyWindows (ms tz ⟨2025, 7, 1⟩) 31 :=
  genRangesLoop_eq tz 7 (by norm_num) (by norm_num) (by decide) 31 40 1 (by norm_num) (by norm_num)
    (by norm_num) (by norm_num)

theorem aug_ranges_eq_windows (tz : Int) :
    generate_daily_ranges_aug_2025 tz = dailyWindows (ms tz ⟨2025, 8, 1⟩) 31 :=
  genRangesLoop_eq tz 8 (by norm_num) (by norm_num) (by decide) 31 40 1 (by norm_num) (by norm_num)
    (by norm_num) (by norm_num)

theorem mem_dailyWindows {base : Int} {n : Nat} {r : Int × Int} :
    r ∈ dailyWindows base n ↔
      ∃ i : Nat, i < n ∧ r = (base + (i : Int) * dayMs, base + ((i : Int) + 1) * dayMs) := by
  simp only [dailyWindows, List.mem_map, List.mem_range]
  constructor
  · rintro ⟨i, hi, rfl⟩
    exact ⟨i, hi, rfl⟩
  · rintro ⟨i, hi, rfl⟩
    exact ⟨i, hi, rfl⟩

theorem dailyWindows_length (base : Int) (n : Nat) : (dailyWindows base n).length = n := by
  simp [dailyWindows]

theorem dailyWindows_getD {base : Int} {n i : Nat} (h : i < n) :
    (dailyWindows base n).getD i (0, 0)
      = (base + (i : Int) * dayMs, base + ((i : Int) + 1) * dayMs) := by
  rw [List.getD_eq_getElem _ _ (by simpa [dailyWindows_length] using h)]
  simp [dailyWindows]

theorem dailyWindows_span {base : Int} {n : Nat} :
    ∀ r ∈ dailyWindows base n, r.2 - r.1 = dayMs := by
  intro r hr
  rw [mem_dailyWindows] at hr
  obtain ⟨i, _, rfl⟩ := hr
  simp only [dayMs]
  ring

theorem dailyWindows_union {base : Int} {n : Nat} (t : Int) :
    (∃ r ∈ dailyWindows base n, r.1 ≤ t ∧ t < r.2) ↔
      base ≤ t ∧ t < base + (n : Int) * dayMs := by
  constructor
  · rintro ⟨r, hr, h1, h2⟩
    rw [mem_dailyWindows] at hr
    obtain ⟨i, hi, rfl⟩ := hr
    simp only [dayMs] at *
    omega
  · rintro ⟨h1, h2⟩
    have hdiv := Int.ediv_add_emod (t - base) 86400000
    have hm0 := Int.emod_nonneg (t - base) (by norm_num : (86400000 : Int) ≠ 0)
    have hmlt := Int.emod_lt_of_pos (t - base) (by norm_num : (0 : Int) < 86400000)
    have hq0 : 0 ≤ (t - base) / 86400000 := Int.ediv_nonneg (by omega) (by norm_num)
    refine ⟨(base + (((t - base) / 86400000).toNat : Int) * dayMs,
             base + ((((t - base) / 86400000).toNat : Int) + 1) * dayMs),
            mem_dailyWindows.mpr ⟨((t - base) / 86400000).toNat, ?_, rfl⟩, ?_, ?_⟩ <;>
      simp only [dayMs] at * <;> omega

theorem dailyWindows_disjoint {base : Int} {n : Nat} (t : Int) :
    ∀ r1 ∈ dailyWindows base n, ∀ r2 ∈ dailyWindows base n,
      r1.1 ≤ t → t < r1.2 → r2.1 ≤ t → t < r2.2 → r1 = r2 := by
  intro r1 h1 r2 h2 a1 a2 b1 b2
  rw [mem_dailyWindows] at h1 h2
  obtain ⟨i, hi, rfl⟩ := h1
  obtain ⟨j, hj, rfl⟩ := h2
  simp only [dayMs] at *
  have : i = j := by omega
  subst this
  rfl

theorem ms_aug1_eq (tz : Int) : ms tz ⟨2025, 8, 1⟩ = ms tz ⟨2025, 7, 1⟩ + 31 * dayMs := by
  have h1 : dayIndex ⟨2025, 8, 1⟩ = 212 := by decide
  have h2 : dayIndex ⟨2025, 7, 1⟩ = 181 := by decide
  simp only [ms, h1, h2, dayMs]
  omega

theorem ms_sep1_eq (tz : Int) : ms tz ⟨2025, 9, 1⟩ = ms tz ⟨2025, 8, 1⟩ + 31 * dayMs := by
  have h1 : dayIndex ⟨2025, 9, 1⟩ = 243 := by decide
  have h2 : dayIndex ⟨2025, 8, 1⟩ = 212 := by decide
  simp only [ms, h1, h2, dayMs]
  omega

/-- C3: for any fixed epoch/timezone constant, `generate_daily_ranges_july_2025`
produces exactly 31 ordered ranges, each spanning 86,400,000 ms, each range's
end equal to the next range's start, whose union is exactly the half-open
interval from July 1 midnight to August 1 midnight, with no point of the
interval covered by two distinct ranges. -/
theorem c3_july_partitioner (tz : Int) :
    (generate_daily_ranges_july_2025 tz).length = 31
    ∧ (∀ r ∈ generate_daily_ranges_july_2025 tz, r.2 - r.1 = 86400000)
    ∧ (∀ i : Nat, i + 1 < 31 →
        ((generate_daily_ranges_july_2025 tz).getD i (0, 0)).2
          = ((generate_daily_ranges_july_2025 tz).getD (i + 1) (0, 0)).1)
    ∧ (∀ t : Int, (∃ r ∈ generate_daily_ranges_july_2025 tz, r.1 ≤ t ∧ t < r.2)
          ↔ ms tz ⟨2025, 7, 1⟩ ≤ t ∧ t < ms tz ⟨2025, 8, 1⟩)
    ∧ (∀ t : Int, ∀ r1 ∈ generate_daily_ranges_july_2025 tz,
        ∀ r2 ∈ generate_daily_ranges_july_2025 tz,
        r1.1 ≤ t → t < r1.2 → r2.1 ≤ t → t < r2.2 → r1 = r2) := by
  rw [july_ranges_eq_windows]
  refine ⟨dailyWindows_length _ _, ?_, ?_, ?_, ?_⟩
  · intro r hr
    simpa [dayMs] using dailyWindows_span r hr
  · intro i hi
    rw [dailyWindows_getD (by omega), dailyWindows_getD (by omega)]
    push_cast
    ring
  · intro t
    rw [dailyWindows_union, ms_aug1_eq]
    norm_num
  · intro t
    exact dailyWindows_disjoint t

/-- Witness for C3 at the concrete offset 0: the July partition list has 31
entries and the instant 15,639,000,000 (inside July 1) lies in some range. -/
theorem c3_july_partitioner_witness :
    (generate_daily_ranges_july_2025 0).length = 31
    ∧ (∃ r ∈ generate_daily_ranges_july_2025 0, r.1 ≤ 15639000000 ∧ 15639000000 < r.2) :=
  ⟨(c3_july_partitioner 0).1,
   ((c3_july_partitioner 0).2.2.2.1 15639000000).mpr (by decide)⟩

/-- `defaultdict(int)` / plain-dict counter table: an insertion-ordered
association list from owner-id strings to counts. -/
abbrev CounterTable := List (String × Nat)

/-- `d.get(k, 0)`: the stored count, 0 when the key is absent. -/
def ctGet (t : CounterTable) (k : String) : Nat :=
  match List.find? (fun e => e.1 == k) t with
  | some e => e.2
  | none => 0

/-- `d.find`-style presence test: `some` entry when the key has been created. -/
def ctFind (t : CounterTable) (k : String) : Option (String × Nat) :=
  List.find? (fun e => e.1 == k) t

/-- `d[k] += 1` on a `defaultdict(int)`:increment the existing entry or create
one (value 1) at the end. -/
def ctBump (t : CounterTable) (k : String) : CounterTable :=
  match t with
  | [] => [(k, 1)]
  | e :: rest => if e.1 == k then (e.1, e.2 + 1) :: rest else e :: ctBump rest k

theorem ctGet_bump_self (t : CounterTable) (k : String) :
    ctGet (ctBump t k) k = ctGet t k + 1 := by
  induction t with
  | nil => simp [ctGet, ctBump, List.find?]
  | cons e rest ih =>
    by_cases h : e.1 = k
    · simp [ctGet, ctBump, List.find?, h]
    · have hb : (e.1 == k) = false := by simpa using h
      simp only [ctBump, hb, Bool.false_eq_true, if_false]
      simp only [ctGet, List.find?, hb] at ih ⊢
      exact ih

theorem ctGet_bump_other (t : CounterTable) (k j : String) (h : j ≠ k) :
    ctGet (ctBump t k) j = ctGet t j := by
  have hkj : (k == j) = false := by simpa using (Ne.symm h)
  induction t with
  | nil => simp [ctGet, ctBump, List.find?, hkj]
  | cons e rest ih =>
    by_cases he : e.1 = k
    · have hbk : (e.1 == k) = true := by simpa using he
      have hbj : (e.1 == j) = false := by simpa [he] using (Ne.symm h)
      simp [ctGet, ctBump, List.find?, hbk, hbj, he, hkj]
    · have hb : (e.1 == k) = false := by simpa using he
      by_cases hej : e.1 = j
      · have hbj : (e.1 == j) = true := by simpa using hej
        simp [ctGet, ctBump, List.find?, hb, hbj]
      · have hbj : (e.1 == j) = false := by simpa using hej
        simp only [ctBump, hb, Bool.false_eq_true, if_false]
        simp only [ctGet, List.find?, hbj] at ih ⊢
        exact ih

/-- Python truthiness of a paging token: `not after` is true when the token is
absent or the empty string. -/
def afterFalsy : Option String → Bool
  | none => true
  | some s => s == ""

/-- Python truthiness of the numeric `offset` field: `not offset` is true when
the field is absent or equal to 0. -/
def offsetFalsy : Option Int → Bool
  | none => true
  | some k => k == 0

/-- A call search result: only `properties.hubspot_owner_id` is consumed
(`none` models an absent property). -/
structure CallRecord where
  ownerId : Option String
deriving DecidableEq, Repr

/-- One response of the calls search endpoint: HTTP status, `results`, and
`paging.next.after`. -/
structure CallsPage where
  status : Nat
  results : List CallRecord
  nextAfter : Option String

/-- Per-record call counting from `main_aug.py` lines 122-125:
`if owner_id and str(owner_id) in sales_owner_ids: call_counts[str(owner_id)] += 1`. -/
def processCallRecord (sales : List String) (counts : CounterTable) (rec : CallRecord) :
    CounterTable :=
  match rec.ownerId with
  | none => counts
  | some s => if s != "" && sales.contains s then ctBump counts s else counts

/-- Per-record call counting from `main_jul.py` lines 125-130 (nested form of
the same condition). -/
def processCallRecordJul (sales : List String) (counts : CounterTable) (rec : CallRecord) :
    CounterTable :=
  match rec.ownerId with
  | none => counts
  | some s =>
    if s != "" then (if sales.contains s then ctBump counts s else counts) else counts

/-- Result of one pagination scope: the counter table and how many pages were
actually fetched. -/
structure FetchResult where
  counts : CounterTable
  pages : Nat
deriving DecidableEq, Repr

/-- The calls `while page_count < max_pages` loop body from `main_aug.py`
lines 92-131, consuming the `k`-th response from `stream`; `fuel` is the
remaining page budget (initially `max_pages = 100`). Breaks: non-200 status,
empty `results`, falsy `after`; otherwise continues on the next page. -/
def callsGo (sales : List String) (stream : Nat → CallsPage) :
    Nat → Nat → CounterTable → FetchResult
  | 0, k, counts => ⟨counts, k⟩
  | fuel + 1, k, counts =>
    let page := stream k
    if page.status != 200 then ⟨counts, k + 1⟩
    else if page.results.isEmpty then ⟨counts, k + 1⟩
    else
      let counts' := page.results.foldl (processCallRecord sales) counts
      if afterFalsy page.nextAfter then ⟨counts', k + 1⟩
      else callsGo sales stream fuel (k + 1) counts'

/-- One full calls pagination scope (one daily range) from `main_aug.py`. -/
def callsRun (sales : List String) (stream : Nat → CallsPage) (init : CounterTable) :
    FetchResult :=
  callsGo sales stream 100 0 init

/-- An engagement item of the meetings endpoint: `engagement.type`,
`engagement.timestamp` (default 0), `str(engagement.ownerId or "")`, and
`metadata.call_and_meeting_type` (default `""`). -/
structure Engagement where
  type : String
  timestamp : Int
  ownerId : String
  meetingType : String
deriving DecidableEq, Repr

/-- One response of the paged engagements endpoint: HTTP status, `results`,
`offset` and `hasMore`. -/
structure MeetingsPage where
  status : Nat
  results : List Engagement
  offset : Option Int
  hasMore : Bool

/-- The hard-coded meeting subtype allow-list of `main_aug.py` line 135. -/
def allowed_types : List String :=
  ["New Demo Meeting", "Sales Meeting Scheduled - Pitch/Demo"]

/-- Per-engagement meeting counting from `main_aug.py` lines 155-170: skip
non-MEETING type, skip timestamps outside `[start_ts, end_ts)`, skip owners
not in the accepted set, and count only allow-listed meeting subtypes. -/
def processEngagement (s e : Int) (sales : List String) (counts : CounterTable)
    (eng : Engagement) : CounterTable :=
  if eng.type != "MEETING" then counts
  else if !(decide (s ≤ eng.timestamp) && decide (eng.timestamp < e)) then counts
  else if !(sales.contains eng.ownerId) then counts
  else if allowed_types.contains eng.meetingType then ctBump counts eng.ownerId
  else counts

/-- The meetings `while page_count < max_pages` loop from `main_aug.py`
lines 142-176: breaks on non-200 status, empty `results`, and
`not hasMore or not offset`; otherwise continues on the next page. -/
def meetingsGo (s e : Int) (sales : List String) (stream : Nat → MeetingsPage) :
    Nat → Nat → CounterTable → FetchResult
  | 0, k, counts => ⟨counts, k⟩
  | fuel + 1, k, counts =>
    let page := stream k
    if page.status != 200 then ⟨counts, k + 1⟩
    else if page.results.isEmpty then ⟨counts, k + 1⟩
    else
      let counts' := page.results.foldl (processEngagement s e sales) counts
      if !page.hasMore || offsetFalsy page.offset then ⟨counts', k + 1⟩
      else meetingsGo s e sales stream fuel (k + 1) counts'

/-- One full meetings pagination scope (one daily range) from `main_aug.py`. -/
def meetingsRun (s e : Int) (sales : List String) (stream : Nat → MeetingsPage)
    (init : CounterTable) : FetchResult :=
  meetingsGo s e sales stream 100 0 init

/-- The outer `for start_ts, end_ts in daily_ranges` meeting-aggregation loop
of `main_aug.py` (lines 137-176): every partition re-fetches from the same
unfiltered paged engagements endpoint, modelled by one shared `stream`. -/
def aggregateMeetings (ranges : List (Int × Int)) (sales : List String)
    (stream : Nat → MeetingsPage) (init : CounterTable) : CounterTable :=
  ranges.foldl (fun c r => (meetingsRun r.1 r.2 sales stream c).counts) init

/-- A nested team record of an owners-listing item; `id` models
`str(team.get("id"))` (absence becomes the string `"None"`). -/
structure TeamRec where
  id : String
deriving DecidableEq, Repr

/-- An owners-listing item: raw `id` (absent modelled as `none`), display
fields with `""` defaults, and the nested team memberships. -/
structure RawOwner where
  id : Option String
  email : String
  firstName : String
  lastName : String
  teams : List TeamRec
deriving DecidableEq, Repr

/-- One response of the owners listing endpoint. -/
structure OwnersPage where
  status : Nat
  results : List RawOwner
  nextAfter : Option String

/-- `any(str(team.get("id")) == "16450" for team in teams)` from the owners
filter (`main_aug.py` line 60, `main_jul.py` line 57). -/
def ownerMatchesTeam (o : RawOwner) : Bool :=
  o.teams.any (fun t => t.id == "16450")

/-- Result of the owners fetch: accumulated accepted owners, whether the
`print("Error fetching owners:", ...)` diagnostic fired (the loop's only
possibly-incomplete signal), and number of pages fetched. -/
structure OwnersResult where
  owners : List RawOwner
  errored : Bool
  pages : Nat
deriving DecidableEq, Repr

/-- The owners `while True` fetch loop from `main_aug.py` lines 47-65 /
`main_jul.py` lines 44-62: non-200 responses break with the accumulated
partial list after printing the error; a falsy `after` ends pagination;
there is no page cap, so the recursion is bounded only by `fuel`. -/
def ownersGo (stream : Nat → OwnersPage) : Nat → Nat → List RawOwner → OwnersResult
  | 0, k, acc => ⟨acc, false, k⟩
  | fuel + 1, k, acc =>
    let page := stream k
    if page.status != 200 then ⟨acc, true, k + 1⟩
    else
      let acc' := acc ++ page.results.filter ownerMatchesTeam
      if afterFalsy page.nextAfter then ⟨acc', false, k + 1⟩
      else ownersGo stream fuel (k + 1) acc'

/-- The owners fetch phase; `fuel` only truncates the model of the unbounded
`while True` loop. -/
def ownersRun (fuel : Nat) (stream : Nat → OwnersPage) : OwnersResult :=
  ownersGo stream fuel 0 []

/-- The team-filtered owners contributed by pages `k, k+1, ..., k+n-1`. -/
def ownersSeg (stream : Nat → OwnersPage) : Nat → Nat → List RawOwner
  | _, 0 => []
  | k, n + 1 => (stream k).results.filter ownerMatchesTeam ++ ownersSeg stream (k + 1) n

/-- `str(owner.get("id", ""))` — absent ids become the empty string. -/
def strDefault : Option String → String
  | none => ""
  | some s => s

/-- Python dict assignment `d[k] = v` on an insertion-ordered association
list: overwrite in place or append. -/
def assocSet (l : List (String × (String × String × String))) (k : String)
    (v : String × String × String) : List (String × (String × String × String)) :=
  if l.any (fun e => e.1 == k) then l.map (fun e => if e.1 == k then (k, v) else e)
  else l ++ [(k, v)]

/-- `owner_lookup.get(oid, ("", "", ""))`. -/
def lookupGet (l : List (String × (String × String × String))) (k : String) :
    String × String × String :=
  match List.find? (fun e => e.1 == k) l with
  | some e => e.2
  | none => ("", "", "")

/-- `set.add` modelled on an insertion-ordered duplicate-free list. -/
def insertIfAbsent (s : List String) (x : String) : List String :=
  if s.contains x then s else s ++ [x]

/-- The outcome of Step 4: `owner_lookup` and `sales_owner_ids`. -/
structure OwnerState where
  lookup : List (String × (String × String × String))
  salesIds : List String

/-- Step 4 of `main_aug.py` (lines 70-80) / `main_jul.py` (lines 67-77):
build `owner_lookup` and `sales_owner_ids` from the fetched owners; an owner
whose stringified id is empty is recorded in the lookup but never added to
the accepted id set (`if owner_id:` guard). -/
def buildOwnerState (owners : List RawOwner) : OwnerState :=
  owners.foldl
    (fun st o =>
      let oid := strDefault o.id
      let lk := assocSet st.lookup oid (o.email, o.firstName, o.lastName)
      if oid != "" then ⟨lk, insertIfAbsent st.salesIds oid⟩ else ⟨lk, st.salesIds⟩)
    ⟨[], []⟩

/-- A spreadsheet cell value: the rows mix strings and integer counts. -/
inductive Cell where
  | str (s : String)
  | nat (n : Nat)
deriving DecidableEq, Repr

/-- `a or ""` on a string (Python `or` keeps a truthy string). -/
def pyOr (a : String) : String :=
  if a == "" then "" else a

/-- `sort_key` from `main_aug.py` lines 188-190 / `main_jul.py` lines 154-156:
`(last or "", first or "", oid)`. -/
def sort_key (lookup : List (String × (String × String × String))) (oid : String) :
    String × String × String :=
  (pyOr (lookupGet lookup oid).2.2, pyOr (lookupGet lookup oid).2.1, oid)

/-- Lexicographic comparison of Python key triples. -/
def keyCmp (a b : String × String × String) : Ordering :=
  (compare a.1 b.1).then ((compare a.2.1 b.2.1).then (compare a.2.2 b.2.2))

/-- The ordering relation used to model `sorted(sales_owner_ids, key=sort_key)`. -/
def keyRel (lookup : List (String × (String × String × String))) (a b : String) : Prop :=
  keyCmp (sort_key lookup a) (sort_key lookup b) ≠ Ordering.gt

instance (lookup : List (String × (String × String × String))) :
    DecidableRel (keyRel lookup) := fun a b => by
  unfold keyRel
  infer_instance

/-- `sorted(sales_owner_ids, key=sort_key)`. -/
def sortedSales (lookup : List (String × (String × String × String)))
    (sales : List String) : List String :=
  List.insertionSort (keyRel lookup) sales

/-- One report row of Step 8: `[owner_id, email, first, last, count]`
with `count = counts.get(owner_id, 0)`. -/
def reportRow (lookup : List (String × (String × String × String)))
    (counts : CounterTable) (oid : String) : List Cell :=
  [Cell.str oid, Cell.str (lookupGet lookup oid).1, Cell.str (lookupGet lookup oid).2.1,
   Cell.str (lookupGet lookup oid).2.2, Cell.nat (ctGet counts oid)]

/-- Step 8 report assembly (`main_aug.py` lines 192-200): a fixed header row
followed by one row per accepted owner in sorted order. -/
def assembleRows (hdr : List Cell) (sales : List String)
    (lookup : List (String × (String × String × String))) (counts : CounterTable) :
    List (List Cell) :=
  hdr :: (sortedSales lookup sales).map (reportRow lookup counts)

/-- A worksheet's value grid. -/
abbrev Grid := List (List Cell)

/-- `worksheet.clear()`: removes every value from the sheet. -/
def worksheetClear (_ : Grid) : Grid := []

/-- Writing one row of new values over an existing row starting at column A:
cells beyond the written width keep their old values. -/
def overlayRow (old new : List Cell) : List Cell :=
  new ++ old.drop new.length

/-- `worksheet.update(values=rows, range_name="A1")`: overlay the 2-D value
grid at the top-left; rows beyond the written height keep their old values. -/
def updateA1 : Grid → Grid → Grid
  | old, [] => old
  | [], new => new
  | o :: os, n :: ns => overlayRow o n :: updateA1 os ns

/-- Step 9 sheet publication (`main_aug.py` lines 212-213 and 221-222,
`main_jul.py` lines 168-169): `sheet.clear()` followed by
`sheet.update(values=rows, range_name="A1")`. -/
def overwriteSheet (rows : Grid) (sheet : Grid) : Grid :=
  updateA1 (worksheetClear sheet) rows

/-- Final state of the July calls loop: counters, the `page_count` variable,
the last `after` token, and how many pages were fetched. -/
structure JulCallsResult where
  counts : CounterTable
  pageCount : Nat
  after : Option String
  pages : Nat

/-- The calls `while page_count < max_pages` loop from `main_jul.py`
lines 89-137, tracking `page_count` and `after` as the script does
(`page_count` increments only when pagination continues). -/
def julCallsGo (sales : List String) (stream : Nat → CallsPage) :
    Nat → Nat → CounterTable → Nat → Option String → JulCallsResult
  | 0, k, counts, pc, after => ⟨counts, pc, after, k⟩
  | fuel + 1, k, counts, pc, after =>
    let page := stream k
    if page.status != 200 then ⟨counts, pc, after, k + 1⟩
    else if page.results.isEmpty then ⟨counts, pc, after, k + 1⟩
    else
      let counts' := page.results.foldl (processCallRecordJul sales) counts
      if afterFalsy page.nextAfter then ⟨counts', pc, page.nextAfter, k + 1⟩
      else julCallsGo sales stream fuel (k + 1) counts' (pc + 1) page.nextAfter

/-- One July calls pagination scope (`max_pages = 100`, `after = None`,
`page_count = 0`). -/
def julCallsRun (sales : List String) (stream : Nat → CallsPage) (init : CounterTable) :
    JulCallsResult :=
  julCallsGo sales stream 100 0 init 0 none

/-- The post-loop warning condition of `main_jul.py` lines 139-140:
`if page_count >= max_pages and after:`. -/
def julWarned (st : JulCallsResult) : Bool :=
  decide (100 ≤ st.pageCount) && !(afterFalsy st.after)

theorem updateA1_nil (rows : Grid) : updateA1 [] rows = rows := by
  cases rows <;> rfl

/-- C4: publishing an assembled report is idempotent — publishing the same
rows twice leaves the destination grid identical, and because the sheet is
fully cleared first, the published content is independent of whatever grid
(e.g. a previous, larger report) was there before. -/
theorem c4_publish_idempotent (rows s s' : Grid) :
    overwriteSheet rows (overwriteSheet rows s) = overwriteSheet rows s
    ∧ overwriteSheet rows s = overwriteSheet rows s' := by
  simp [overwriteSheet, worksheetClear, updateA1_nil]

/-- C9: when a meetings page reports `hasMore = true` but its `offset` is
falsy (absent or 0), the offset-style loop terminates at that page: exactly
one page is fetched and only that page's records are counted. -/
theorem c9_falsy_offset_terminates (s e : Int) (sales : List String)
    (stream : Nat → MeetingsPage) (init : CounterTable)
    (h0 : (stream 0).status = 200) (hr : (stream 0).results ≠ [])
    (hm : (stream 0).hasMore = true) (ho : offsetFalsy (stream 0).offset = true) :
    meetingsRun s e sales stream init
      = ⟨(stream 0).results.foldl (processEngagement s e sales) init, 1⟩ := by
  have hne : (stream 0).results.isEmpty = false := by
    simpa [List.isEmpty_iff] using hr
  simp [meetingsRun, meetingsGo, h0, hne, hm, ho]

/-- Witness for C9: a concrete single page with `hasMore = true`, `offset = 0`
and one qualifying meeting stops after one page with one counted meeting. -/
theorem c9_falsy_offset_terminates_witness :
    meetingsRun 0 10 ["A"]
        (fun _ => ⟨200, [⟨"MEETING", 5, "A", "New Demo Meeting"⟩], some 0, true⟩) []
      = ⟨[("A", 1)], 1⟩ := by
  rw [c9_falsy_offset_terminates 0 10 ["A"]
    (fun _ => ⟨200, [⟨"MEETING", 5, "A", "New Demo Meeting"⟩], some 0, true⟩) []
    rfl (by decide) rfl rfl]
  decide

/-- C7: a call record whose `ownerId` is absent or not in the accepted owner
set increments no counter, and a meeting record whose (string-converted)
`ownerId` is not in the accepted set increments no counter: the counter
table after processing such a record equals the table before. -/
theorem c7_owner_filter_exclusive (sales : List String) (counts : CounterTable)
    (rec : CallRecord) (eng : Engagement) (s e : Int)
    (hrec : rec.ownerId = none ∨ ∃ sId, rec.ownerId = some sId ∧ sales.contains sId = false)
    (heng : sales.contains eng.ownerId = false) :
    processCallRecord sales counts rec = counts
    ∧ processCallRecordJul sales counts rec = counts
    ∧ processEngagement s e sales counts eng = counts := by
  have heng' : eng.ownerId ∉ sales := by simpa using heng
  refine ⟨?_, ?_, ?_⟩
  · rcases hrec with h | ⟨sId, hs, hc⟩
    · simp [processCallRecord, h]
    · have hc' : sId ∉ sales := by simpa using hc
      simp [processCallRecord, hs, hc']
  · rcases hrec with h | ⟨sId, hs, hc⟩
    · simp [processCallRecordJul, h]
    · have hc' : sId ∉ sales := by simpa using hc
      simp [processCallRecordJul, hs, hc']
  · simp [processEngagement, heng']

/-- Witness for C7: a record owned by `"B"` leaves the table `[("A", 2)]`
unchanged when only `"A"` is accepted. -/
theorem c7_owner_filter_exclusive_witness :
    processCallRecord ["A"] [("A", 2)] ⟨some "B"⟩ = [("A", 2)]
    ∧ processCallRecordJul ["A"] [("A", 2)] ⟨some "B"⟩ = [("A", 2)]
    ∧ processEngagement 0 10 ["A"] [("A", 2)] ⟨"MEETING", 5, "B", "New Demo Meeting"⟩
        = [("A", 2)] :=
  c7_owner_filter_exclusive ["A"] [("A", 2)] ⟨some "B"⟩
    ⟨"MEETING", 5, "B", "New Demo Meeting"⟩ 0 10
    (Or.inr ⟨"B", rfl, by decide⟩) (by decide)

/-- Counterexample to C2 as stated: a calls page with zero records but a
present (truthy) continuation cursor terminates pagination immediately —
only one page is ever fetched, the loop does not continue to a next page. -/
theorem c2_counterexample :
    ((fun _ : Nat => (⟨200, [], some "tok"⟩ : CallsPage)) 0).results = []
    ∧ afterFalsy ((fun _ : Nat => (⟨200, [], some "tok"⟩ : CallsPage)) 0).nextAfter = false
    ∧ (callsRun [] (fun _ : Nat => (⟨200, [], some "tok"⟩ : CallsPage)) []).pages = 1 := by
  refine ⟨rfl, by decide, by decide⟩

/-- C2 amended: in both the cursor-style calls loop and the offset-style
meetings loop, an empty `results` page terminates pagination immediately —
regardless of whether a continuation cursor/offset is present — leaving the
counters unchanged after exactly one fetch. -/
theorem c2_amended (sales : List String) (cs : Nat → CallsPage)
    (mstream : Nat → MeetingsPage) (init : CounterTable) (s e : Int)
    (hc : (cs 0).status = 200) (hcr : (cs 0).results = [])
    (hm : (mstream 0).status = 200) (hmr : (mstream 0).results = []) :
    callsRun sales cs init = ⟨init, 1⟩ ∧ meetingsRun s e sales mstream init = ⟨init, 1⟩ := by
  constructor
  · have he : (cs 0).results.isEmpty = true := by simp [hcr]
    simp [callsRun, callsGo, hc, he]
  · have he : (mstream 0).results.isEmpty = true := by simp [hmr]
    simp [meetingsRun, meetingsGo, hm, he]

/-- Witness for the amended C2 at concrete empty pages carrying live
continuation signals. -/
theorem c2_amended_witness :
    callsRun [] (fun _ => ⟨200, [], some "t"⟩) [] = ⟨[], 1⟩
    ∧ meetingsRun 0 10 [] (fun _ => ⟨200, [], some 5, true⟩) [] = ⟨[], 1⟩ :=
  c2_amended [] (fun _ => ⟨200, [], some "t"⟩) (fun _ => ⟨200, [], some 5, true⟩) [] 0 10
    rfl rfl rfl rfl

theorem callsGo_pages_le (sales : List String) (stream : Nat → CallsPage) :
    ∀ (fuel k : Nat) (counts : CounterTable),
      (callsGo sales stream fuel k counts).pages ≤ k + fuel := by
  intro fuel
  induction fuel with
  | zero => intro k counts; simp [callsGo]
  | succ fuel ih =>
    intro k counts
    by_cases h1 : (stream k).status != 200
    · simp [callsGo, h1]
    · by_cases h2 : (stream k).results.isEmpty
      · simp [callsGo, h1, h2]
      · by_cases h3 : afterFalsy (stream k).nextAfter
        · simp [callsGo, h1, h2, h3]
        · have := ih (k + 1) ((stream k).results.foldl (processCallRecord sales) counts)
          simp only [callsGo, h1, h2, h3]
          simp only [Bool.not_eq_true] at h1 h2 h3
          simp [h1, h2, h3]
          omega

theorem meetingsGo_pages_le (s e : Int) (sales : List String) (stream : Nat → MeetingsPage) :
    ∀ (fuel k : Nat) (counts : CounterTable),
      (meetingsGo s e sales stream fuel k counts).pages ≤ k + fuel := by
  intro fuel
  induction fuel with
  | zero => intro k counts; simp [meetingsGo]
  | succ fuel ih =>
    intro k counts
    by_cases h1 : (stream k).status != 200
    · simp [meetingsGo, h1]
    · by_cases h2 : (stream k).results.isEmpty
      · simp [meetingsGo, h1, h2]
      · by_cases h3 : (!(stream k).hasMore || offsetFalsy (stream k).offset)
        · simp [meetingsGo, h1, h2, h3]
        · have := ih (k + 1) ((stream k).results.foldl (processEngagement s e sales) counts)
          simp only [meetingsGo, h1, h2, h3]
          simp only [Bool.not_eq_true] at h1 h2 h3
          simp [h1, h2, h3]
          omega

theorem julCallsGo_pageCount_le (sales : List String) (stream : Nat → CallsPage) :
    ∀ (fuel k pc : Nat) (counts : CounterTable) (after : Option String),
      (julCallsGo sales stream fuel k counts pc after).pageCount ≤ pc + fuel := by
  intro fuel
  induction fuel with
  | zero => intro k pc counts after; simp [julCallsGo]
  | succ fuel ih =>
    intro k pc counts after
    by_cases h1 : (stream k).status != 200
    · simp [julCallsGo, h1]
    · by_cases h2 : (stream k).results.isEmpty
      · simp [julCallsGo, h1, h2]
      · by_cases h3 : afterFalsy (stream k).nextAfter
        · simp [julCallsGo, h1, h2, h3]
        · have := ih (k + 1) (pc + 1)
            ((stream k).results.foldl (processCallRecordJul sales) counts) (stream k).nextAfter
          simp only [julCallsGo, h1, h2, h3]
          simp only [Bool.not_eq_true] at h1 h2 h3
          simp [h1, h2, h3]
          omega

theorem julCallsGo_allgood (sales : List String) (stream : Nat → CallsPage)
    (hgood : ∀ j, (stream j).status = 200 ∧ (stream j).results ≠ []
        ∧ afterFalsy (stream j).nextAfter = false) :
    ∀ (fuel k pc : Nat) (counts : CounterTable) (after : Option String), 1 ≤ fuel →
      (julCallsGo sales stream fuel k counts pc after).pageCount = pc + fuel
      ∧ afterFalsy (julCallsGo sales stream fuel k counts pc after).after = false := by
  intro fuel
  induction fuel with
  | zero =>
    intro k pc counts after h
    exact absurd h (by omega)
  | succ fuel ih =>
    intro k pc counts after _
    obtain ⟨hs, hr, ha⟩ := hgood k
    have h1 : ((stream k).status != 200) = false := by simp [hs]
    have h2 : (stream k).results.isEmpty = false := by simpa [List.isEmpty_iff] using hr
    rcases Nat.eq_zero_or_pos fuel with hf0 | hf1
    · subst hf0
      simp [julCallsGo, h1, h2, ha]
    · have := ih (k + 1) (pc + 1)
        ((stream k).results.foldl (processCallRecordJul sales) counts) (stream k).nextAfter hf1
      simp only [julCallsGo, h1, h2, ha]
      simp only [Bool.false_eq_true, if_false]
      constructor
      · rw [this.1]
        omega
      · exact this.2

/-- Counterexample to C8 as stated: the owners-listing fetch loop is a
pagination scope with no page-count ceiling — against a source that always
supplies a continuation cursor it fetches as many pages as the run allows
(150 here), exceeding 100. -/
theorem c8_counterexample :
    ¬ (ownersRun 150 (fun _ => ⟨200, [], some "t"⟩)).pages ≤ 100 := by
  decide

/-- C8 amended: the per-partition calls and meetings record-fetch loops are
capped at 100 fetched pages (hence terminate against any page source); the
July calls loop, when driven to the cap by pages that always carry records
and a live cursor, ends with `page_count = 100` and its possibly-truncated
warning condition set; the August loops carry no warning signal and the
owners loop has no cap at all (see the counterexample). -/
theorem c8_page_caps (sales : List String) (cs : Nat → CallsPage)
    (mstream : Nat → MeetingsPage) (js : Nat → CallsPage)
    (init initM initJ : CounterTable) (s e : Int)
    (hjgood : ∀ j, (js j).status = 200 ∧ (js j).results ≠ []
        ∧ afterFalsy (js j).nextAfter = false) :
    (callsRun sales cs init).pages ≤ 100
    ∧ (meetingsRun s e sales mstream initM).pages ≤ 100
    ∧ (julCallsRun sales js initJ).pageCount = 100
    ∧ julWarned (julCallsRun sales js initJ) = true := by
  have hj := julCallsGo_allgood sales js hjgood 100 0 0 initJ none (by norm_num)
  refine ⟨?_, ?_, ?_, ?_⟩
  · simpa using callsGo_pages_le sales cs 100 0 init
  · simpa using meetingsGo_pages_le s e sales mstream 100 0 initM
  · simpa [julCallsRun] using hj.1
  · have h2 := hj.2
    simp only [julCallsRun] at hj ⊢
    simp [julWarned, hj.1, h2]

theorem ownersGo_error_at (stream : Nat → OwnersPage) :
    ∀ (n fuel k : Nat) (acc : List RawOwner),
      (∀ j, j < n → (stream (k + j)).status = 200
        ∧ afterFalsy (stream (k + j)).nextAfter = false) →
      (stream (k + n)).status ≠ 200 → n < fuel →
      ownersGo stream fuel k acc = ⟨acc ++ ownersSeg stream k n, true, k + n + 1⟩ := by
  intro n
  induction n with
  | zero =>
    intro fuel k acc _ hbad hfuel
    obtain ⟨f, rfl⟩ : ∃ f, fuel = f + 1 := ⟨fuel - 1, by omega⟩
    have h1 : ((stream k).status != 200) = true := by
      simpa using hbad
    simp [ownersGo, h1, ownersSeg]
  | succ n ih =>
    intro fuel k acc hgood hbad hfuel
    obtain ⟨f, rfl⟩ : ∃ f, fuel = f + 1 := ⟨fuel - 1, by omega⟩
    obtain ⟨hs, ha⟩ := hgood 0 (by omega)
    rw [Nat.add_zero] at hs ha
    have h1 : ((stream k).status != 200) = false := by simp [hs]
    have hgood' : ∀ j, j < n → (stream (k + 1 + j)).status = 200
        ∧ afterFalsy (stream (k + 1 + j)).nextAfter = false := by
      intro j hj
      have := hgood (j + 1) (by omega)
      rwa [show k + (j + 1) = k + 1 + j by omega] at this
    have hbad' : (stream (k + 1 + n)).status ≠ 200 := by
      rwa [show k + (n + 1) = k + 1 + n by omega] at hbad
    have hrec := ih f (k + 1) (acc ++ (stream k).results.filter ownerMatchesTeam)
      hgood' hbad' (by omega)
    simp only [ownersGo, h1, Bool.false_eq_true, if_false, ha, hrec]
    simp only [ownersSeg, List.append_assoc]
    congr 1
    omega

/-- C5: when page `n` of the owners listing returns a non-success status
after `n` successful pages, the fetch loop stops right there (page `n+1` is
never requested), the result carries exactly the accepted owners of the
successful pages, the error signal (the printed owner-fetch error) is set
rather than the loop reporting clean termination, and the run carries this
partial directory unchanged into the Step-4 owner-state build that feeds
aggregation. -/
theorem c5_owners_failsoft (stream : Nat → OwnersPage) (fuel n : Nat)
    (hgood : ∀ j, j < n → (stream j).status = 200 ∧ afterFalsy (stream j).nextAfter = false)
    (hbad : (stream n).status ≠ 200) (hfuel : n < fuel) :
    ownersRun fuel stream = ⟨ownersSeg stream 0 n, true, n + 1⟩
    ∧ buildOwnerState (ownersRun fuel stream).owners = buildOwnerState (ownersSeg stream 0 n) := by
  have h := ownersGo_error_at stream n fuel 0 []
    (by simpa using hgood) (by simpa using hbad) hfuel
  have h' : ownersRun fuel stream = ⟨ownersSeg stream 0 n, true, n + 1⟩ := by
    simpa [ownersRun] using h
  exact ⟨h', by rw [h']⟩

/-- Witness for C5: page 0 succeeds with one matching owner, page 1 fails;
the loop returns just that owner with the error flag set after two fetches. -/
theorem c5_owners_failsoft_witness :
    ownersRun 10 (fun j => if j = 0
        then ⟨200, [⟨some "A", "a@x", "Ann", "Zed", [⟨"16450"⟩]⟩], some "t"⟩
        else ⟨500, [], none⟩)
      = ⟨[⟨some "A", "a@x", "Ann", "Zed", [⟨"16450"⟩]⟩], true, 2⟩ := by
  rw [(c5_owners_failsoft
    (fun j => if j = 0
        then ⟨200, [⟨some "A", "a@x", "Ann", "Zed", [⟨"16450"⟩]⟩], some "t"⟩
        else ⟨500, [], none⟩) 10 1
    (by intro j hj
        have hj0 : j = 0 := by omega
        subst hj0
        exact ⟨rfl, by decide⟩)
    (by decide) (by norm_num)).1]
  decide

theorem mem_insertIfAbsent {s : List String} {x y : String}
    (h : y ∈ insertIfAbsent s x) : y ∈ s ∨ y = x := by
  unfold insertIfAbsent at h
  by_cases hc : s.contains x
  · rw [if_pos hc] at h
    exact Or.inl h
  · rw [if_neg hc] at h
    rcases List.mem_append.mp h with h' | h'
    · exact Or.inl h'
    · simp at h'
      exact Or.inr h'

theorem buildOwnerState_go_ne_empty (owners : List RawOwner) :
    ∀ (st : OwnerState), (∀ x ∈ st.salesIds, x ≠ "") →
      ∀ x ∈ (owners.foldl
        (fun st o =>
          let oid := strDefault o.id
          let lk := assocSet st.lookup oid (o.email, o.firstName, o.lastName)
          if oid != "" then ⟨lk, insertIfAbsent st.salesIds oid⟩ else ⟨lk, st.salesIds⟩)
        st).salesIds, x ≠ "" := by
  induction owners with
  | nil => intro st hst; exact hst
  | cons o rest ih =>
    intro st hst
    simp only [List.foldl_cons]
    by_cases h : strDefault o.id != ""
    · rw [if_pos h]
      apply ih
      intro x hx
      rcases mem_insertIfAbsent hx with h' | h'
      · exact hst x h'
      · subst h'
        simpa using h
    · rw [if_neg h]
      exact ih _ hst

theorem buildOwnerState_salesIds_ne_empty (owners : List RawOwner) :
    ∀ x ∈ (buildOwnerState owners).salesIds, x ≠ "" := by
  have := buildOwnerState_go_ne_empty owners ⟨[], []⟩ (by simp)
  simpa [buildOwnerState] using this

/-- C10: an owner record with an absent id (stringified to `""`) is never
added to `sales_owner_ids` — every accepted id is a non-empty string — so no
report row carries an empty owner id and an engagement whose stringified
`ownerId` is empty can never be counted. -/
theorem c10_no_empty_owner_id (owners : List RawOwner) (counts : CounterTable)
    (hdr : List Cell) (s e : Int) (eng : Engagement) :
    (∀ oid ∈ (buildOwnerState owners).salesIds, oid ≠ "")
    ∧ (∀ o : RawOwner, o.id = none → strDefault o.id ∉ (buildOwnerState owners).salesIds)
    ∧ (∀ row ∈ (assembleRows hdr (buildOwnerState owners).salesIds
          (buildOwnerState owners).lookup counts).tail,
        row.headD (Cell.str "") ≠ Cell.str "")
    ∧ (eng.ownerId = "" →
        processEngagement s e (buildOwnerState owners).salesIds counts eng = counts) := by
  have hne := buildOwnerState_salesIds_ne_empty owners
  refine ⟨hne, ?_, ?_, ?_⟩
  · intro o ho
    rw [ho]
    intro hmem
    exact hne "" hmem rfl
  · intro row hrow
    simp only [assembleRows, List.tail_cons, List.mem_map] at hrow
    obtain ⟨oid, hoid, rfl⟩ := hrow
    have hmem : oid ∈ (buildOwnerState owners).salesIds :=
      (List.perm_insertionSort (keyRel (buildOwnerState owners).lookup)
        (buildOwnerState owners).salesIds).mem_iff.mp (by simpa [sortedSales] using hoid)
    have hoidne := hne oid hmem
    simp [reportRow, hoidne]
  · intro hid
    have hnotin : "" ∉ (buildOwnerState owners).salesIds := fun hmem => hne "" hmem rfl
    have hc : ((buildOwnerState owners).salesIds.contains eng.ownerId) = false := by
      rw [hid]
      simpa using hnotin
    have hc' : eng.ownerId ∉ (buildOwnerState owners).salesIds := by
      rw [hid]; exact hnotin
    simp [processEngagement, hc']

/-- Witness for C10: one team-matching owner with an absent id and one with
id `"A"`; only `"A"` is accepted, the assembled rows never show an empty
owner id, and an ownerless engagement is not counted. -/
theorem c10_no_empty_owner_id_witness :
    (∀ oid ∈ (buildOwnerState
        [⟨none, "x@x", "No", "Id", [⟨"16450"⟩]⟩, ⟨some "A", "a@x", "Ann", "Zed", [⟨"16450"⟩]⟩]).salesIds,
      oid ≠ "")
    ∧ processEngagement 0 10 (buildOwnerState
          [⟨none, "x@x", "No", "Id", [⟨"16450"⟩]⟩,
           ⟨some "A", "a@x", "Ann", "Zed", [⟨"16450"⟩]⟩]).salesIds
        [] ⟨"MEETING", 5, "", "New Demo Meeting"⟩ = [] := by
  have h := c10_no_empty_owner_id
    [⟨none, "x@x", "No", "Id", [⟨"16450"⟩]⟩, ⟨some "A", "a@x", "Ann", "Zed", [⟨"16450"⟩]⟩]
    [] [] 0 10 ⟨"MEETING", 5, "", "New Demo Meeting"⟩
  exact ⟨h.1, h.2.2.2 rfl⟩

/-- C6: every owner id in the accepted set yields exactly one report row per
assembled metric table, that row's count cell is `counts.get(oid, 0)`, and a
counter table with no entry for the owner yields a count of 0 (zero-fill). -/
theorem c6_zero_fill (sales : List String)
    (lookup : List (String × (String × String × String))) (counts : CounterTable)
    (hdr : List Cell) (oid : String) (hnd : sales.Nodup) (hmem : oid ∈ sales) :
    ((assembleRows hdr sales lookup counts).tail.countP
        (fun row => decide (row.headD (Cell.str "") = Cell.str oid))) = 1
    ∧ (∀ row ∈ (assembleRows hdr sales lookup counts).tail,
        row.headD (Cell.str "") = Cell.str oid →
        row.getD 4 (Cell.str "") = Cell.nat (ctGet counts oid))
    ∧ (ctFind counts oid = none → ctGet counts oid = 0) := by
  refine ⟨?_, ?_, ?_⟩
  · simp only [assembleRows, List.tail_cons, List.countP_map]
    have hcongr : ∀ x ∈ sortedSales lookup sales,
        ((fun row => decide (row.headD (Cell.str "") = Cell.str oid))
          ∘ reportRow lookup counts) x ↔ ((x == oid) : Bool) := by
      intro x _
      simp [reportRow, Function.comp]
    rw [List.countP_congr hcongr]
    have hperm := List.perm_insertionSort (keyRel lookup) sales
    have hcount : (sortedSales lookup sales).countP (fun x => x == oid)
        = sales.countP (fun x => x == oid) := hperm.countP_eq _
    rw [hcount]
    have h1 := List.nodup_iff_count_le_one.mp hnd oid
    have h2 : 0 < sales.count oid := List.count_pos_iff.mpr hmem
    rw [List.count_eq_countP] at h1 h2
    omega
  · intro row hrow hhead
    simp only [assembleRows, List.tail_cons, List.mem_map] at hrow
    obtain ⟨x, _, rfl⟩ := hrow
    have hx : x = oid := by simpa [reportRow] using hhead
    subst hx
    rfl
  · intro h
    unfold ctGet
    have h' : List.find? (fun e => e.1 == oid) counts = none := h
    rw [h']

/-- Witness for C6: with accepted owners `B, A` and a counter table that has
an entry only for `B`, owner `A` still gets exactly one row, zero-filled. -/
theorem c6_zero_fill_witness :
    ((assembleRows [Cell.str "OwnerID"] ["B", "A"]
        [("A", ("a@x", "Ann", "Zed")), ("B", ("b@x", "Bob", "Ada"))] [("B", 3)]).tail.countP
        (fun row => decide (row.headD (Cell.str "") = Cell.str "A"))) = 1
    ∧ (ctFind [("B", 3)] "A" = none → ctGet [("B", 3)] "A" = 0) := by
  have h := c6_zero_fill ["B", "A"]
    [("A", ("a@x", "Ann", "Zed")), ("B", ("b@x", "Bob", "Ada"))] [("B", 3)]
    [Cell.str "OwnerID"] "A" (by decide) (by decide)
  exact ⟨h.1, h.2.2⟩

/-- The combined acceptance test of the meeting aggregation body
(`main_aug.py` lines 155-170), as one Boolean. -/
def acceptMeeting (s e : Int) (sales : List String) (eng : Engagement) : Bool :=
  (eng.type == "MEETING") && (decide (s ≤ eng.timestamp) && decide (eng.timestamp < e))
    && sales.contains eng.ownerId && allowed_types.contains eng.meetingType

theorem processEngagement_eq (s e : Int) (sales : List String) (counts : CounterTable)
    (eng : Engagement) :
    processEngagement s e sales counts eng
      = if acceptMeeting s e sales eng then ctBump counts eng.ownerId else counts := by
  unfold processEngagement acceptMeeting
  cases h1 : (eng.type == "MEETING") <;>
    cases h2 : (decide (s ≤ eng.timestamp) && decide (eng.timestamp < e)) <;>
      cases h3 : sales.contains eng.ownerId <;>
        cases h4 : allowed_types.contains eng.meetingType <;>
          simp_all

theorem meetingsRun_single (s e : Int) (sales : List String) (eng : Engagement)
    (init : CounterTable) :
    meetingsRun s e sales (fun _ => ⟨200, [eng], none, false⟩) init
      = ⟨processEngagement s e sales init eng, 1⟩ := by
  rfl

theorem aggregateMeetings_single_count (ranges : List (Int × Int)) (sales : List String)
    (eng : Engagement) (init : CounterTable) :
    ctGet (aggregateMeetings ranges sales (fun _ => ⟨200, [eng], none, false⟩) init) eng.ownerId
      = ctGet init eng.ownerId
        + ranges.countP (fun r => acceptMeeting r.1 r.2 sales eng) := by
  induction ranges generalizing init with
  | nil => simp [aggregateMeetings]
  | cons r rs ih =>
    have hstep : aggregateMeetings (r :: rs) sales (fun _ => ⟨200, [eng], none, false⟩) init
        = aggregateMeetings rs sales (fun _ => ⟨200, [eng], none, false⟩)
            (processEngagement r.1 r.2 sales init eng) := by
      simp [aggregateMeetings, meetingsRun_single]
    rw [hstep, ih, List.countP_cons]
    rw [processEngagement_eq]
    by_cases h : acceptMeeting r.1 r.2 sales eng
    · rw [if_pos h, ctGet_bump_self]
      simp [h]
      omega
    · rw [if_neg h]
      simp [h]

theorem countP_beq_range (n i0 : Nat) (hi : i0 < n) :
    (List.range n).countP (fun j => j == i0) = 1 := by
  induction n with
  | zero => omega
  | succ n ih =>
    rw [List.range_succ, List.countP_append]
    rcases Nat.lt_or_ge i0 n with h | h
    · rw [ih h]
      have : (n == i0) = false := by simp; omega
      simp [List.countP_singleton, this]
    · have hni : i0 = n := by omega
      subst hni
      have hz : (List.range i0).countP (fun j => j == i0) = 0 := by
        rw [List.countP_eq_zero]
        intro a ha
        have : a < i0 := List.mem_range.mp ha
        simp
        omega
      simp [hz, List.countP_singleton]

theorem windows_boundary_countP (base : Int) (n i0 : Nat) (hi : i0 < n) :
    ((dailyWindows base n).countP
        (fun r => decide (r.1 ≤ base + (i0 : Int) * dayMs)
          && decide (base + (i0 : Int) * dayMs < r.2))) = 1 := by
  unfold dailyWindows
  rw [List.countP_map]
  have hcongr : ∀ j ∈ List.range n,
      ((fun r => decide (r.1 ≤ base + (i0 : Int) * dayMs)
          && decide (base + (i0 : Int) * dayMs < r.2))
        ∘ (fun (i : Nat) => (base + (i : Int) * dayMs, base + ((i : Int) + 1) * dayMs))) j
      ↔ ((j == i0) : Bool) := by
    intro j _
    simp only [Function.comp_apply, Bool.and_eq_true, decide_eq_true_eq, beq_iff_eq, dayMs]
    omega
  rw [List.countP_congr hcongr]
  exact countP_beq_range n i0 hi

/-- C1: a meeting whose timestamp is exactly the start boundary of the `i`-th
August daily range lies in exactly one range (the start-inclusive one) under
the half-open check `start <= ts < end`, and across the whole aggregation run
— in which every partition re-fetches the same unfiltered engagement page —
the record increments its owner's meeting counter exactly once, never zero
or two times. -/
theorem c1_boundary_counted_once (tz : Int) (sales : List String) (eng : Engagement)
    (init : CounterTable) (i : Nat) (hi : i < 31)
    (hts : eng.timestamp = ((generate_daily_ranges_aug_2025 tz).getD i (0, 0)).1)
    (htype : eng.type = "MEETING") (howner : sales.contains eng.ownerId = true)
    (hsub : allowed_types.contains eng.meetingType = true) :
    (∃! r, r ∈ generate_daily_ranges_aug_2025 tz ∧ r.1 ≤ eng.timestamp ∧ eng.timestamp < r.2)
    ∧ ctGet (aggregateMeetings (generate_daily_ranges_aug_2025 tz) sales
          (fun _ => ⟨200, [eng], none, false⟩) init) eng.ownerId
        = ctGet init eng.ownerId + 1 := by
  rw [aug_ranges_eq_windows] at hts ⊢
  rw [dailyWindows_getD hi] at hts
  constructor
  · refine ⟨(ms tz ⟨2025, 8, 1⟩ + (i : Int) * dayMs, ms tz ⟨2025, 8, 1⟩ + ((i : Int) + 1) * dayMs),
      ⟨mem_dailyWindows.mpr ⟨i, hi, rfl⟩, ?_, ?_⟩, ?_⟩
    · rw [hts]
    · rw [hts]
      simp only [dayMs]
      omega
    · rintro y ⟨hy, hy1, hy2⟩
      exact dailyWindows_disjoint eng.timestamp y hy
        (ms tz ⟨2025, 8, 1⟩ + (i : Int) * dayMs, ms tz ⟨2025, 8, 1⟩ + ((i : Int) + 1) * dayMs)
        (mem_dailyWindows.mpr ⟨i, hi, rfl⟩) hy1 hy2
        (by rw [hts]) (by rw [hts]; simp only [dayMs]; omega)
  · rw [aggregateMeetings_single_count]
    have hpass : ∀ r ∈ dailyWindows (ms tz ⟨2025, 8, 1⟩) 31,
        ((acceptMeeting r.1 r.2 sales eng : Bool) : Prop)
          ↔ ((decide (r.1 ≤ eng.timestamp) && decide (eng.timestamp < r.2) : Bool) : Prop) := by
      intro r _
      have howner' : eng.ownerId ∈ sales := by simpa using howner
      have hsub' : eng.meetingType ∈ allowed_types := by simpa using hsub
      simp [acceptMeeting, htype, howner', hsub']
    rw [List.countP_congr hpass, hts, windows_boundary_countP (ms tz ⟨2025, 8, 1⟩) 31 i hi]

/-- Witness for C1: with offset 0, the timestamp 19,094,400,000 is exactly
the start of the 10th August range; a qualifying meeting there is counted
exactly once across the whole aggregation. -/
theorem c1_boundary_counted_once_witness :
    ctGet (aggregateMeetings (generate_daily_ranges_aug_2025 0) ["A"]
        (fun _ => ⟨200, [⟨"MEETING", 19094400000, "A", "New Demo Meeting"⟩], none, false⟩) [])
        "A" = ctGet [] "A" + 1 :=
  (c1_boundary_counted_once 0 ["A"] ⟨"MEETING", 19094400000, "A", "New Demo Meeting"⟩
    [] 9 (by norm_num) (by decide) rfl (by decide) (by decide)).2

/-- Witness for the amended C8 at concrete streams: the capped loops stay at
or under 100 pages, and a July stream that always continues drives
`page_count` to 100 with the warning condition set. -/
theorem c8_page_caps_witness :
    (callsRun ["A"] (fun _ => ⟨200, [⟨some "A"⟩], some "t"⟩) []).pages ≤ 100
    ∧ julWarned (julCallsRun ["A"] (fun _ => ⟨200, [⟨some "A"⟩], some "t"⟩) []) = true := by
  have h := c8_page_caps ["A"] (fun _ => ⟨200, [⟨some "A"⟩], some "t"⟩)
    (fun _ => ⟨200, [⟨"MEETING", 5, "A", "New Demo Meeting"⟩], some 1, true⟩)
    (fun _ => ⟨200, [⟨some "A"⟩], some "t"⟩) [] [] [] 0 10
    (fun _ => ⟨rfl, by show ([⟨some "A"⟩] : List CallRecord) ≠ []; decide,
      by show afterFalsy (some "t") = false; decide⟩)
  exact ⟨h.1, h.2.2.2⟩
